import Mathlib

/-!
# Verification of the password-expiry notifier core

Shallow embedding of the core logic of the `ad-pw-reset` server
(expiry calculator, audit ledger, delivery queue + worker, job
orchestrator) together with proofs about the specified properties.

Timestamps are modelled as integer milliseconds since the epoch in a
fixed (UTC) timezone; JavaScript calendar-day arithmetic
(`Date.setDate(getDate() + n)`) becomes addition of `n * 86400000` ms.
Absent / unparseable values (`undefined`, `null`, `NaN` dates) are
modelled with `Option`.
-/

namespace AdPwReset

/-- Milliseconds in one day (`1000 * 60 * 60 * 24`). -/
def msPerDay : Int := 86400000

/-- The `Math.ceil` of the exact rational `a / b` for a positive divisor `b`,
as used for `Math.ceil(diffTime / msPerDay)`. -/
def jsCeilDiv (a b : Int) : Int := -(Int.fdiv (-a) b)

/-- Test `startsList pat l`: true when `pat` occurs at the head of `l`. -/
def startsList : List Char → List Char → Bool
  | [], _ => true
  | _ :: _, [] => false
  | p :: ps, c :: cs => p == c && startsList ps cs

/-- Test `hasSubList pat l`: true when `pat` occurs contiguously in `l`. -/
def hasSubList (pat : List Char) : List Char → Bool
  | [] => startsList pat []
  | c :: cs => startsList pat (c :: cs) || hasSubList pat cs

/-- JavaScript `s.includes(pat)` on strings. -/
def strIncludes (s pat : String) : Bool := hasSubList pat.toList s.toList

/-- The policy marker checked by `calculateExpiry`
(`policies.includes("DisablePasswordExpiration")`). -/
def disableExpirationMarker : String := "DisablePasswordExpiration"

/-- A raw directory user record as consumed by the server
(fields selected from the Graph response).  `passwordPolicies` is
`Option` because Graph may omit it (the code reads
`user.passwordPolicies || ""`); the two timestamps are `Option` because
they may be `null`/absent; `onPremisesSyncEnabled` is `Option Bool`
because the code compares with `=== true`. -/
structure User where
  id : String
  displayName : String
  userPrincipalName : String
  accountEnabled : Bool
  passwordPolicies : Option String
  lastPasswordChangeDateTime : Option Int
  createdDateTime : Option Int
  onPremisesSyncEnabled : Option Bool
deriving Repr, DecidableEq

/-- Result of `calculateExpiry` (only the fields the function adds or
overwrites; the JavaScript result also spreads the original user
record, which callers keep separately). -/
structure ExpiryResult where
  passwordLastSetDateTime : Option Int
  passwordExpiresInDays : Int
  passwordExpiryDate : Option Int
deriving Repr, DecidableEq

/-- Embedding of `calculateExpiry(user, defaultDays)` from the server
(the `new Date()` taken inside the function becomes the explicit
argument `now`).  Mirrors the source line by line: baseline fallback
`lastPasswordChangeDateTime || createdDateTime`; missing baseline gives
the 999/null sentinel result; `DisablePasswordExpiration` is honoured
only for non-hybrid users; otherwise the expiry date is the baseline
plus `defaultDays` days and the day count is the ceiling of the
difference to `now`. -/
def calculateExpiry (user : User) (defaultDays : Int) (now : Int) : ExpiryResult :=
  let isHybrid := user.onPremisesSyncEnabled == some true
  let lastSet := user.lastPasswordChangeDateTime.orElse (fun _ => user.createdDateTime)
  match lastSet with
  | none => ⟨none, 999, none⟩
  | some ls =>
    let policies := user.passwordPolicies.getD ""
    let policySaysNeverExpires := strIncludes policies disableExpirationMarker
    if policySaysNeverExpires && !isHybrid then
      ⟨some ls, 999, none⟩
    else
      let expiryDate := ls + defaultDays * msPerDay
      ⟨some ls, jsCeilDiv (expiryDate - now) msPerDay, some expiryDate⟩

/-- A hybrid user carrying the disable-expiration policy and both
baseline timestamps absent: used to probe the hybrid-override claim. -/
def hybridNoBaselineUser : User :=
  { id := "u-cx1", displayName := "CX One", userPrincipalName := "cx1@example.com",
    accountEnabled := true,
    passwordPolicies := some "DisablePasswordExpiration",
    lastPasswordChangeDateTime := none, createdDateTime := none,
    onPremisesSyncEnabled := some true }

example : calculateExpiry hybridNoBaselineUser 90 0 = ⟨none, 999, none⟩ := by decide

/-- A hybrid user with the disable-expiration policy and a known
baseline (password set at epoch). -/
def hybridWithBaselineUser : User :=
  { id := "u-w1", displayName := "W One", userPrincipalName := "w1@example.com",
    accountEnabled := true,
    passwordPolicies := some "DisablePasswordExpiration",
    lastPasswordChangeDateTime := some 0, createdDateTime := none,
    onPremisesSyncEnabled := some true }

/-- C1 (amended): for a user with `onPremisesSyncEnabled = true` and a
password policy containing the disable-expiration marker, *provided a
baseline timestamp exists* (`lastPasswordChangeDateTime` or
`createdDateTime`), `calculateExpiry` never returns the never-expires
sentinel: the expiry date is the baseline plus the configured window and
the day count is derived from it (in particular `passwordExpiryDate` is
not `null`). -/
theorem C1_hybrid_override_with_baseline (u : User) (dd now ls : Int)
    (hsync : u.onPremisesSyncEnabled = some true)
    ( _hpol : strIncludes (u.passwordPolicies.getD "") disableExpirationMarker = true)
    (hbase : u.lastPasswordChangeDateTime.orElse (fun _ => u.createdDateTime) = some ls) :
    calculateExpiry u dd now =
      ⟨some ls, jsCeilDiv (ls + dd * msPerDay - now) msPerDay, some (ls + dd * msPerDay)⟩ := by
  unfold calculateExpiry
  rw [hbase, hsync]
  simp

/-- Witness for `C1_hybrid_override_with_baseline` at a concrete input. -/
theorem C1_hybrid_override_with_baseline_witness :
    calculateExpiry hybridWithBaselineUser 90 (45 * msPerDay) =
      ⟨some 0, jsCeilDiv (0 + 90 * msPerDay - 45 * msPerDay) msPerDay,
        some (0 + 90 * msPerDay)⟩ :=
  C1_hybrid_override_with_baseline hybridWithBaselineUser 90 (45 * msPerDay) 0
    rfl (by decide) rfl

/-- C1 counterexample: the claim as stated quantifies over *every* user
record with the sync flag and the policy marker, but a record with no
baseline timestamp at all still yields the never-expires result
(999 days, null expiry date), so "never returns the never-expires
result" is false as stated. -/
theorem C1_counterexample :
    hybridNoBaselineUser.onPremisesSyncEnabled = some true ∧
    strIncludes (hybridNoBaselineUser.passwordPolicies.getD "") disableExpirationMarker = true ∧
    calculateExpiry hybridNoBaselineUser 90 0 = ⟨none, 999, none⟩ := by
  decide

/-- C9: a user with neither `lastPasswordChangeDateTime` nor
`createdDateTime` always gets the safe never-expires result
(999 days, null expiry date), regardless of policy flags, sync flag,
window or clock. -/
theorem C9_missing_baseline_safe (u : User) (dd now : Int)
    (h1 : u.lastPasswordChangeDateTime = none) (h2 : u.createdDateTime = none) :
    calculateExpiry u dd now = ⟨none, 999, none⟩ := by
  unfold calculateExpiry
  rw [h1, h2]
  rfl

/-- Witness for `C9_missing_baseline_safe` at a concrete input. -/
theorem C9_missing_baseline_safe_witness :
    calculateExpiry hybridNoBaselineUser 90 0 = ⟨none, 999, none⟩ :=
  C9_missing_baseline_safe hybridNoBaselineUser 90 0 rfl rfl

/-! ## Audit history (`history.json` and `checkAndLogHistory`) -/

/-- An entry of the audit history file.  `date` is the calendar-day key
(the `YYYY-MM-DD` part of the ISO timestamp, modelled as the UTC day
number); `timestamp` is the full write time. -/
structure HistEntry where
  date : Int
  timestamp : Int
  email : String
  profileId : String
  status : String
deriving Repr, DecidableEq

/-- The calendar-day key of a timestamp
(`new Date().toISOString().split('T')[0]` in the source). -/
def dayOf (now : Int) : Int := Int.fdiv now msPerDay

/-- The predicate of the `history.some(...)` de-duplication test. -/
def isSentEntryFor (day : Int) (email pid : String) (h : HistEntry) : Bool :=
  h.date == day && h.email == email && h.profileId == pid && h.status == "sent"

/-- The `alreadySent` test of `checkAndLogHistory`. -/
def alreadySentToday (history : List HistEntry) (day : Int) (email pid : String) : Bool :=
  history.any (isSentEntryFor day email pid)

/-- The 60-day prune applied before every write
(`history.filter(h => new Date(h.date) > sixtyDaysAgo)`; the stored
date string parses back to midnight of that day). -/
def pruneHistory (history : List HistEntry) (now : Int) : List HistEntry :=
  history.filter (fun h => decide (now - 60 * msPerDay < h.date * msPerDay))

/-- Embedding of `checkAndLogHistory(userEmail, profileId, write)`;
the file contents are threaded explicitly and the result is
`(returned boolean, new file contents)`. -/
def checkAndLogHistory (history : List HistEntry) (now : Int) (email pid : String)
    (write : Bool) : Bool × List HistEntry :=
  let today := dayOf now
  let alreadySent := alreadySentToday history today email pid
  if alreadySent && !write then (true, history)
  else if write then
    (alreadySent, pruneHistory history now ++ [⟨today, now, email, pid, "sent"⟩])
  else (alreadySent, history)

/-- Number of `"sent"` audit entries for a fixed
(calendar date, recipient, profile) key. -/
def countSent (history : List HistEntry) (day : Int) (email pid : String) : Nat :=
  (history.filter (isSentEntryFor day email pid)).length

/-! ## Notification profiles, modes, messages, queue items -/

/-- Cadence part of a notification profile (`cadence.daysBefore`). -/
structure CadenceSpec where
  daysBefore : List Int
deriving Repr, DecidableEq

/-- Recipient policy part of a notification profile. -/
structure Recipients where
  toUser : Bool
  toManager : Bool
  toAdmins : List String
  readReceipt : Bool
deriving Repr, DecidableEq

/-- A notification profile as consumed by `/api/run-job`.
`preferredTime` is the parsed `HH:mm` pair; `subjectLine` is `Option`
because the code falls back on a default subject when it is absent or
empty. -/
structure Profile where
  id : String
  name : String
  emailTemplate : String
  subjectLine : Option String
  preferredTime : Option (Nat × Nat)
  cadence : CadenceSpec
  recipients : Recipients
  assignedGroups : List String
deriving Repr, DecidableEq

/-- Job execution mode. -/
inductive Mode
  | preview
  | test
  | live
deriving Repr, DecidableEq

/-- A fully-formed mail message handed to the transport (the `from`
address is fixed global configuration and carries no logic). -/
structure MailMsg where
  toAddr : String
  cc : List String
  subject : String
  body : String
  readReceipt : Bool
deriving Repr, DecidableEq

/-- An entry of the delivery queue file.  `scheduledFor = none` models
a stored value that does not parse as a date
(`isNaN(new Date(...).getTime())`). -/
structure QueueItem where
  id : String
  scheduledFor : Option Int
  recipient : String
  ccList : List String
  subject : String
  body : String
  profileName : String
  status : String
  retries : Int
  readReceipt : Bool
deriving Repr, DecidableEq

/-- Template placeholder substitution (`processTemplate`); the
human-readable date formatting is abstracted to `toString`, and a null
expiry date prints as `"Never"`. -/
def fmtExpiryDate : Option Int → String
  | none => "Never"
  | some t => toString t

/-- Embedding of `processTemplate(template, user, days, expiryDateStr)`. -/
def processTemplate (template : String) (u : User) (days : Int)
    (expiryDate : Option Int) : String :=
  ((((template.replace "\x7b\x7buser.displayName\x7d\x7d" u.displayName).replace
      "\x7b\x7buser.userPrincipalName\x7d\x7d" u.userPrincipalName).replace
      "\x7b\x7bdaysUntilExpiry\x7d\x7d" (toString days)).replace
      "\x7b\x7bexpiryDate\x7d\x7d" (fmtExpiryDate expiryDate))

/-! ## The `/api/run-job` handler -/

/-- Rendering of `g.toLowerCase()` (ASCII case folding, rendered over the
character list so that it evaluates by kernel reduction). -/
def lowerChars (s : String) : List Char := s.toList.map Char.toLower

/-- Embedding of `profile.assignedGroups.some(g => g.toLowerCase() === 'all users')`. -/
def isAllUsers (p : Profile) : Bool :=
  p.assignedGroups.any (fun g => lowerChars g == "all users".toList)

/-- The cadence gate of the run-job handler
(`triggerDays.has(daysLeft)` where
`triggerDays = new Set(profile.cadence.daysBefore)`). -/
def matchesUser (p : Profile) (u : User) (dd now : Int) : Bool :=
  p.cadence.daysBefore.contains (calculateExpiry u dd now).passwordExpiresInDays

/-- The next occurrence of a preferred `HH:mm` time of day: today at
that time if still ahead, else tomorrow (lines computing
`preferredDate` in the handler; local time modelled as UTC). -/
def nextPreferred (h m : Nat) (now : Int) : Int :=
  let dayStart := msPerDay * Int.fdiv now msPerDay
  let t := dayStart + (h : Int) * 3600000 + (m : Int) * 60000
  if t < now then t + msPerDay else t

/-- The `finalScheduleTime` computation: the explicit request value if
given, else the profile's preferred time (live mode only), else none
("send now"). -/
def effectiveScheduleTime (scheduleTime : Option Int) (p : Profile) (mode : Mode)
    (now : Int) : Option Int :=
  match scheduleTime with
  | some t => some t
  | none =>
    match p.preferredTime with
    | some hm => if mode = Mode.live then some (nextPreferred hm.1 hm.2 now) else none
    | none => none

/-- All run-relevant request data and environment oracles of one job
run: the mail transport outcome (`sendOk`), the manager lookup
(`managerOf`, `none` for lookup failure or no manager), and the
id generator for queued items. -/
structure JobCfg where
  profile : Profile
  mode : Mode
  testEmail : String
  scheduleTime : Option Int
  now : Int
  defaultDays : Int
  sendOk : MailMsg → Bool
  managerOf : String → Option String
  genId : Nat → String

/-- A row of the preview output. -/
structure PreviewRow where
  user : String
  email : String
  daysUntilExpiry : Int
  expiryDate : Option Int
  group : String
deriving Repr, DecidableEq

/-- The mutable state of one job run: the two persisted collections
(history, queue) plus the per-run accumulators. -/
structure RunState where
  history : List HistEntry
  queue : List QueueItem
  previewData : List PreviewRow
  sentMails : List MailMsg
  failedSends : List MailMsg
  emailsSent : Nat
  queued : Nat
  skipped : Nat
  nextId : Nat
deriving DecidableEq

/-- Embedding of `mode === 'test' ? testEmail : user.userPrincipalName`; the empty
string models an absent/falsy value. -/
def recipientFor (mode : Mode) (testEmail : String) (u : User) : String :=
  if mode = Mode.test then testEmail else u.userPrincipalName

/-- CC list construction: configured admin addresses plus the user's
manager when `recipients.toManager` is set and the mode is not preview
(a failed lookup, modelled by `none`, is non-fatal and just omits the
cc). -/
def ccListFor (cfg : JobCfg) (u : User) : List String :=
  cfg.profile.recipients.toAdmins ++
    (if cfg.profile.recipients.toManager ∧ cfg.mode ≠ Mode.preview then
      (match cfg.managerOf u.id with
       | some e => [e]
       | none => [])
    else [])

/-- The body of the per-user loop of `/api/run-job` (lines 544-646 of
the server): skip disabled accounts; compute expiry; gate on the
cadence set; then preview row / live de-duplication check / queue or
immediate send.  `effectiveScheduleTime` is computed once per run in
the source from the same request data, so re-evaluating it here per
user yields the identical value. -/
def processUser (cfg : JobCfg) (st : RunState) (u : User) : RunState :=
  if !u.accountEnabled then st
  else
    let uex := calculateExpiry u cfg.defaultDays cfg.now
    let daysLeft := uex.passwordExpiresInDays
    if matchesUser cfg.profile u cfg.defaultDays cfg.now then
      match cfg.mode with
      | Mode.preview =>
          { st with previewData := st.previewData ++
              [⟨u.displayName, u.userPrincipalName, daysLeft, uex.passwordExpiryDate,
                if isAllUsers cfg.profile then "All Users" else "Assigned Group"⟩] }
      | _ =>
        let recipient := recipientFor cfg.mode cfg.testEmail u
        if cfg.mode = Mode.live ∧
            (checkAndLogHistory st.history cfg.now u.userPrincipalName cfg.profile.id false).1 = true then
          { st with skipped := st.skipped + 1 }
        else if recipient = "" then st
        else
          let subject := processTemplate (cfg.profile.subjectLine.getD "Password Expiry Notice")
            u daysLeft uex.passwordExpiryDate
          let body := processTemplate cfg.profile.emailTemplate u daysLeft uex.passwordExpiryDate
          let ccList := ccListFor cfg u
          match effectiveScheduleTime cfg.scheduleTime cfg.profile cfg.mode cfg.now with
          | some t =>
            let item : QueueItem :=
              ⟨cfg.genId st.nextId, some t, recipient, ccList, subject, body,
                cfg.profile.name, "pending", 0, cfg.profile.recipients.readReceipt⟩
            let hist1 := if cfg.mode = Mode.live then
                (checkAndLogHistory st.history cfg.now u.userPrincipalName cfg.profile.id true).2
              else st.history
            { st with
                queue := st.queue ++ [item]
                history := hist1
                queued := st.queued + 1
                nextId := st.nextId + 1 }
          | none =>
            let mail : MailMsg := ⟨recipient, ccList, subject, body,
              cfg.profile.recipients.readReceipt⟩
            if cfg.sendOk mail then
              let hist1 := if cfg.mode = Mode.live then
                  (checkAndLogHistory st.history cfg.now u.userPrincipalName cfg.profile.id true).2
                else st.history
              { st with
                  sentMails := st.sentMails ++ [mail]
                  history := hist1
                  emailsSent := st.emailsSent + 1 }
            else
              { st with failedSends := st.failedSends ++ [mail] }
    else st

/-- The per-user loop over the resolved audience. -/
def runUsers (cfg : JobCfg) (users : List User) (st : RunState) : RunState :=
  users.foldl (processUser cfg) st

/-- Result of resolving one named group against the directory:
found with its (user-typed, transitive) members, not found, or a
request error. -/
inductive GroupResult
  | found (members : List User)
  | notFound
  | err
deriving Repr, DecidableEq

/-- The per-group audience resolution loop (lines 479-506): each group
is looked up inside its own try/catch; a missing group or a lookup
error contributes nothing; members are de-duplicated by user id. -/
def resolveGroups (lookup : String → GroupResult) (groups : List String) : List User :=
  (groups.foldl
    (fun acc g =>
      match lookup g with
      | GroupResult.found ms =>
          ms.foldl
            (fun (acc2 : List String × List User) u =>
              if acc2.1.contains u.id then acc2 else (acc2.1 ++ [u.id], acc2.2 ++ [u]))
            acc
      | GroupResult.notFound => acc
      | GroupResult.err => acc)
    ([], [])).2

/-- The whole `/api/run-job` handler: a failed directory
authentication (or all-users fetch), modelled by `authOk = false`,
hits the outer catch and aborts with no user processed; otherwise the
audience is resolved and the per-user loop runs.  The returned `Bool`
is the `success` field of the response. -/
def runJob (authOk : Bool) (allUsers : List User) (lookup : String → GroupResult)
    (cfg : JobCfg) (st : RunState) : Bool × RunState :=
  if !authOk then (false, st)
  else
    let targetUsers :=
      if isAllUsers cfg.profile then allUsers
      else resolveGroups lookup cfg.profile.assignedGroups
    (true, runUsers cfg targetUsers st)

/-- A fresh run state over given persisted collections. -/
def freshRun (h : List HistEntry) (q : List QueueItem) : RunState :=
  ⟨h, q, [], [], [], 0, 0, 0, 0⟩

/-- A sequence of job runs: each run starts from the persisted
(history, queue) pair left by the previous one, with fresh per-run
accumulators. -/
def runJobsOn : List (JobCfg × List User) → List HistEntry × List QueueItem →
    List HistEntry × List QueueItem
  | [], s => s
  | (c, us) :: rest, (h, q) =>
    let st := runUsers c us (freshRun h q)
    runJobsOn rest (st.history, st.queue)

/-! ## The background queue worker (the 60-second `setInterval`) -/

/-- The worker's due filter for one item: not already `failed` or
`sending`, schedule parses, and the scheduled time is past or
present. -/
def isDue (item : QueueItem) (now : Int) : Bool :=
  !(item.status == "failed" || item.status == "sending") &&
  (match item.scheduledFor with
   | none => false
   | some t => decide (t ≤ now))

/-- An item that reaches the date parse and fails it: the filter pass
sets its status to `failed` in memory ("so we don't loop") and
excludes it from the due list. -/
def isInvalidPending (item : QueueItem) : Bool :=
  !(item.status == "failed" || item.status == "sending") && item.scheduledFor == none

/-- The in-memory effect of the filter pass on the whole queue. -/
def markInvalids (queue : List QueueItem) : List QueueItem :=
  queue.map (fun i => if isInvalidPending i then { i with status := "failed" } else i)

/-- The mail the worker builds for an item. -/
def workerMail (item : QueueItem) : MailMsg :=
  ⟨item.recipient, item.ccList, item.subject, item.body, item.readReceipt⟩

/-- In-place mutation `item.status = s` of the (unique) aliased queue
object, rendered as a first-match update by id. -/
def setStatusById : List QueueItem → String → String → List QueueItem
  | [], _, _ => []
  | e :: es, x, s =>
    if e.id = x then { e with status := s } :: es else e :: setStatusById es x s

/-- The catch branch: `item.status = 'pending'; item.retries += 1`. -/
def bumpRetryById : List QueueItem → String → List QueueItem
  | [], _ => []
  | e :: es, x =>
    if e.id = x then { e with status := "pending", retries := e.retries + 1 } :: es
    else e :: bumpRetryById es x

/-- Embedding of `queue.splice(queue.findIndex(i => i.id === item.id), 1)`. -/
def removeFirstById : List QueueItem → String → List QueueItem
  | [], _ => []
  | e :: es, x => if e.id = x then es else e :: removeFirstById es x

/-- The `MAX_RETRIES` bound of the worker. -/
def MAX_RETRIES : Int := 3

/-- The worker's try block for one due item over the current
(queue, attempts-so-far) state: park at the retry cap without an
attempt; otherwise mark sending, attempt the send, and either remove
the item (success) or reset it to pending with one more retry
(failure). -/
def processItem (sendOk : MailMsg → Bool) (st : List QueueItem × List MailMsg)
    (item : QueueItem) : List QueueItem × List MailMsg :=
  if MAX_RETRIES ≤ item.retries then (setStatusById st.1 item.id "failed", st.2)
  else
    let q1 := setStatusById st.1 item.id "sending"
    let m := workerMail item
    if sendOk m then (removeFirstById q1 item.id, st.2 ++ [m])
    else (bumpRetryById q1 item.id, st.2 ++ [m])

/-- One worker tick as a transformation of the durable queue state,
also returning the delivery attempts made.  When no item is due the
handler returns before any `saveQueue`, so the durable queue is
unchanged and the in-memory invalid marks are discarded; otherwise the
invalid marks and the per-item effects are persisted by the final
save. -/
def workerTick (queue : List QueueItem) (now : Int) (sendOk : MailMsg → Bool) :
    List QueueItem × List MailMsg :=
  let pending := queue.filter (fun i => isDue i now)
  if pending.isEmpty then (queue, [])
  else pending.foldl (processItem sendOk) (markInvalids queue, [])

/-- The worker never reads or writes the audit history file: a tick of
the whole system state (queue plus history) passes the history through
untouched. -/
def workerSystemTick (queue : List QueueItem) (history : List HistEntry) (now : Int)
    (sendOk : MailMsg → Bool) :
    (List QueueItem × List HistEntry) × List MailMsg :=
  (((workerTick queue now sendOk).1, history), (workerTick queue now sendOk).2)

/-! ## C3: disabled accounts are always skipped -/

/-- One disabled user's iteration is a no-op on the whole run state. -/
lemma processUser_disabled (cfg : JobCfg) (st : RunState) (u : User)
    (h : u.accountEnabled = false) : processUser cfg st u = st := by
  simp [processUser, h]

/-- C3: a user record with `accountEnabled = false` contributes
nothing to a job run in any mode: its iteration leaves the run state
(preview rows, queue, sends, history, counters) unchanged, and an
entire run behaves exactly as the run over only the enabled users. -/
theorem C3_disabled_accounts_always_skipped (cfg : JobCfg) (st : RunState) :
    (∀ u : User, u.accountEnabled = false → processUser cfg st u = st) ∧
    (∀ users : List User,
      runUsers cfg users st = runUsers cfg (users.filter (·.accountEnabled)) st) := by
  constructor
  · intro u h
    exact processUser_disabled cfg st u h
  · intro users
    induction users generalizing st with
    | nil => rfl
    | cons u us ih =>
      simp only [runUsers, List.foldl_cons, List.filter_cons]
      by_cases h : u.accountEnabled = true
      · rw [if_pos h]
        simpa [runUsers] using ih (processUser cfg st u)
      · have hf : u.accountEnabled = false := by simpa using h
        rw [if_neg h, processUser_disabled cfg st u hf]
        simpa [runUsers] using ih st

/-- Witness for `C3_disabled_accounts_always_skipped` at a concrete
input. -/
theorem C3_disabled_accounts_always_skipped_witness :
    processUser
      ⟨⟨"p1", "P", "b", none, none, ⟨[0]⟩, ⟨true, false, [], false⟩, ["g"]⟩,
        Mode.preview, "", none, 0, 90, fun _ => true, fun _ => none, fun _ => "q"⟩
      (freshRun [] [])
      { hybridWithBaselineUser with accountEnabled := false } = freshRun [] [] :=
  (C3_disabled_accounts_always_skipped _ _).1
    { hybridWithBaselineUser with accountEnabled := false } rfl

/-! ## C5: cadence matching -/

/-- A profile whose cadence contains the never-expires sentinel 999. -/
def cadence999Profile : Profile :=
  ⟨"p999", "Sentinel", "Body", none, none, ⟨[999]⟩, ⟨true, false, [], false⟩, ["g"]⟩

/-- A cloud-only user whose policy disables expiration: computed state
is the never-expires sentinel (999 days, null expiry date). -/
def cloudNeverUser : User :=
  ⟨"u-ne", "NE", "ne@example.com", true, some "DisablePasswordExpiration",
    some 0, none, none⟩

/-- Preview-mode run configuration over `cadence999Profile`. -/
def c5cfg : JobCfg :=
  ⟨cadence999Profile, Mode.preview, "", none, 0, 90,
    fun _ => true, fun _ => none, fun _ => "id"⟩

/-- A profile whose cadence does not contain 999. -/
def cadence7Profile : Profile :=
  ⟨"p7c", "Seven", "Body", none, none, ⟨[7]⟩, ⟨true, false, [], false⟩, ["g"]⟩

/-- Preview-mode run configuration over `cadence7Profile`. -/
def c5NoMatchCfg : JobCfg :=
  ⟨cadence7Profile, Mode.preview, "", none, 0, 90,
    fun _ => true, fun _ => none, fun _ => "id"⟩

/-- C5 counterexample: the handler's gate is only
`triggerDays.has(daysLeft)` with the sentinel 999 standing for
never-expires, so a user whose computed state *is* never-expires
(null expiry date) still triggers a notification when 999 is in the
cadence — the claimed "not never-expires AND exact member" equivalence
fails. -/
theorem C5_counterexample :
    matchesUser cadence999Profile cloudNeverUser 90 0 = true ∧
    (calculateExpiry cloudNeverUser 90 0).passwordExpiryDate = none ∧
    (processUser c5cfg (freshRun [] []) cloudNeverUser).previewData.length = 1 := by
  decide

/-- C5 (amended): a user/profile pair triggers exactly when the
profile's cadence set contains the computed `passwordExpiresInDays` as
an exact integer (so a value one above or one below a cadence entry
that is not itself listed does not match); never-expires states take
part through their sentinel value 999 rather than being excluded.  A
non-matching user's iteration leaves the run state unchanged. -/
theorem C5_exact_cadence_amended (p : Profile) (u : User) (dd now : Int) :
    (matchesUser p u dd now = true ↔
      (calculateExpiry u dd now).passwordExpiresInDays ∈ p.cadence.daysBefore) ∧
    (∀ (cfg : JobCfg) (st : RunState),
      matchesUser cfg.profile u cfg.defaultDays cfg.now = false →
      processUser cfg st u = st) := by
  constructor
  · simp [matchesUser, List.contains_iff_exists_mem_beq, beq_iff_eq]
  · intro cfg st hm
    by_cases hen : u.accountEnabled = true
    · simp [processUser, hen, hm]
    · have hf : u.accountEnabled = false := by simpa using hen
      simp [processUser, hf]

/-- Witness for `C5_exact_cadence_amended` at concrete inputs. -/
theorem C5_exact_cadence_amended_witness :
    (matchesUser cadence999Profile cloudNeverUser 90 0 = true ↔
      (calculateExpiry cloudNeverUser 90 0).passwordExpiresInDays ∈
        cadence999Profile.cadence.daysBefore) ∧
    processUser c5NoMatchCfg (freshRun [] []) cloudNeverUser = freshRun [] [] :=
  ⟨(C5_exact_cadence_amended cadence999Profile cloudNeverUser 90 0).1,
   (C5_exact_cadence_amended cadence7Profile cloudNeverUser 90 0).2
     c5NoMatchCfg (freshRun [] []) (by decide)⟩

/-! ## C6: error scope of a job run -/

/-- Profile assigned to two groups. -/
def c6Profile : Profile :=
  ⟨"p6", "Six", "Body", none, none, ⟨[90]⟩, ⟨true, false, [], false⟩, ["g1", "g2"]⟩

/-- An enabled cloud user whose password was set at the epoch: 90 days
remaining when evaluated at `now = 0` with a 90-day window. -/
def enabledMatchingUser : User :=
  ⟨"u-m", "M", "m@example.com", true, none, some 0, none, none⟩

/-- Lookup where group `g1` errors and every other group resolves. -/
def c6Lookup : String → GroupResult :=
  fun g => if g = "g1" then GroupResult.err else GroupResult.found [enabledMatchingUser]

/-- Preview-mode run configuration over `c6Profile`. -/
def c6cfg : JobCfg :=
  ⟨c6Profile, Mode.preview, "", none, 0, 90,
    fun _ => true, fun _ => none, fun _ => "id"⟩

/-- C6 counterexample: with group `g1` failing to resolve, the run
does not abort — it still succeeds and processes the member of `g2`,
so a group-resolution failure is *not* fatal to the job as claimed. -/
theorem C6_counterexample :
    c6Lookup "g1" = GroupResult.err ∧
    (runJob true [] c6Lookup c6cfg (freshRun [] [])).1 = true ∧
    (runJob true [] c6Lookup c6cfg (freshRun [] [])).2.previewData.length = 1 := by
  decide

/-- C6 (amended): a directory-authentication failure aborts the whole
run with nothing processed, but a group-resolution failure is
non-fatal and isolated: the failing group contributes no users and the
remaining groups are resolved exactly as if it were absent. -/
theorem C6_fatal_error_scope (authOk : Bool) (allUsers : List User)
    (lookup : String → GroupResult) (cfg : JobCfg) (st : RunState)
    (g : String) (l1 l2 : List String)
    (hauth : authOk = false) (herr : lookup g = GroupResult.err) :
    runJob authOk allUsers lookup cfg st = (false, st) ∧
    resolveGroups lookup (l1 ++ g :: l2) = resolveGroups lookup (l1 ++ l2) := by
  constructor
  · simp [runJob, hauth]
  · simp [resolveGroups, List.foldl_append, herr]

/-- Witness for `C6_fatal_error_scope` at concrete inputs. -/
theorem C6_fatal_error_scope_witness :
    runJob false [] c6Lookup c6cfg (freshRun [] []) = (false, freshRun [] []) ∧
    resolveGroups c6Lookup ([] ++ "g1" :: ["g2"]) = resolveGroups c6Lookup ([] ++ ["g2"]) :=
  C6_fatal_error_scope false [] c6Lookup c6cfg (freshRun [] []) "g1" [] ["g2"]
    rfl (by decide)

/-! ## C7: queue versus immediate-send routing -/

/-- Test-mode run with an explicit schedule time that is already in
the past of the run's clock. -/
def c7cfg : JobCfg :=
  ⟨c6Profile, Mode.test, "admin@example.com", some 0, 1000, 90,
    fun _ => true, fun _ => none, fun _ => "id"⟩

/-- Test-mode run with no schedule time at all (immediate send). -/
def c7cfgNone : JobCfg :=
  ⟨c6Profile, Mode.test, "admin@example.com", none, 1000, 90,
    fun _ => true, fun _ => none, fun _ => "id"⟩

/-- C7 counterexample: the handler only tests `if (finalScheduleTime)`
— it never compares the schedule time with the current time.  With an
explicit schedule time of 0 and the run's clock at 1000 (schedule in
the past), the message is still enqueued, not sent immediately, so
"enqueue iff the time lies in the future" is false as stated. -/
theorem C7_counterexample :
    c7cfg.scheduleTime = some 0 ∧ (0 : Int) < c7cfg.now ∧
    (processUser c7cfg (freshRun [] []) enabledMatchingUser).queue.length = 1 ∧
    (processUser c7cfg (freshRun [] []) enabledMatchingUser).sentMails = [] ∧
    (processUser c7cfg (freshRun [] []) enabledMatchingUser).failedSends = [] := by
  decide

/-- C7 (amended): in a non-preview run, a matched enabled user with a
non-empty recipient that is not de-duplicated away is routed by
whether the effective schedule time is *set* — any set time (past or
future) enqueues a QueueItem and performs no immediate transport
attempt, while an unset time performs exactly one immediate transport
attempt and enqueues nothing.  (A preferred-time-derived schedule is
in the future by construction, but an explicit schedule time is taken
as-is.) -/
theorem C7_enqueue_iff_schedule_set (cfg : JobCfg) (st : RunState) (u : User)
    (hen : u.accountEnabled = true)
    (hm : matchesUser cfg.profile u cfg.defaultDays cfg.now = true)
    (hmode : cfg.mode ≠ Mode.preview)
    (hskip : ¬(cfg.mode = Mode.live ∧
      (checkAndLogHistory st.history cfg.now u.userPrincipalName cfg.profile.id false).1 = true))
    (hrcpt : ¬(recipientFor cfg.mode cfg.testEmail u = "")) :
    (∀ t : Int,
      effectiveScheduleTime cfg.scheduleTime cfg.profile cfg.mode cfg.now = some t →
        (processUser cfg st u).queue.length = st.queue.length + 1 ∧
        (processUser cfg st u).sentMails = st.sentMails ∧
        (processUser cfg st u).failedSends = st.failedSends) ∧
    (effectiveScheduleTime cfg.scheduleTime cfg.profile cfg.mode cfg.now = none →
        (processUser cfg st u).queue = st.queue ∧
        (processUser cfg st u).sentMails.length + (processUser cfg st u).failedSends.length
          = st.sentMails.length + st.failedSends.length + 1) := by
  cases hM : cfg.mode with
  | preview => exact absurd hM hmode
  | test =>
    rw [hM] at hrcpt
    constructor
    · intro t ht
      simp [processUser, hen, hm, hM, ht, hrcpt]
    · intro ht
      simp [processUser, hen, hm, hM, ht, hrcpt]
      split <;> simp [Nat.add_assoc, Nat.add_comm, Nat.add_left_comm]
  | live =>
    rw [hM] at hskip hrcpt
    have hsk : (checkAndLogHistory st.history cfg.now u.userPrincipalName
        cfg.profile.id false).1 = false := by
      by_contra hc
      exact hskip ⟨rfl, by simpa using hc⟩
    constructor
    · intro t ht
      simp [processUser, hen, hm, hM, ht, hrcpt, hsk]
    · intro ht
      simp [processUser, hen, hm, hM, ht, hrcpt, hsk]
      split <;> simp [Nat.add_assoc, Nat.add_comm, Nat.add_left_comm]

/-- Witness for `C7_enqueue_iff_schedule_set` at concrete inputs
(past schedule time: enqueued; no schedule time: one immediate
attempt). -/
theorem C7_enqueue_iff_schedule_set_witness :
    ((processUser c7cfg (freshRun [] []) enabledMatchingUser).queue.length =
        (freshRun [] []).queue.length + 1 ∧
      (processUser c7cfg (freshRun [] []) enabledMatchingUser).sentMails =
        (freshRun [] []).sentMails ∧
      (processUser c7cfg (freshRun [] []) enabledMatchingUser).failedSends =
        (freshRun [] []).failedSends) ∧
    ((processUser c7cfgNone (freshRun [] []) enabledMatchingUser).queue =
        (freshRun [] []).queue ∧
      (processUser c7cfgNone (freshRun [] []) enabledMatchingUser).sentMails.length +
          (processUser c7cfgNone (freshRun [] []) enabledMatchingUser).failedSends.length =
        (freshRun [] []).sentMails.length + (freshRun [] []).failedSends.length + 1) :=
  ⟨(C7_enqueue_iff_schedule_set c7cfg (freshRun [] []) enabledMatchingUser
      rfl (by decide) (by decide) (by decide) (by decide)).1 0 rfl,
   (C7_enqueue_iff_schedule_set c7cfgNone (freshRun [] []) enabledMatchingUser
      rfl (by decide) (by decide) (by decide) (by decide)).2 rfl⟩

/-! ## C2: at most one live "sent" audit entry per key and day -/

lemma checkAndLogHistory_fst (h : List HistEntry) (now : Int) (E p : String) :
    (checkAndLogHistory h now E p false).1 = alreadySentToday h (dayOf now) E p := by
  unfold checkAndLogHistory
  by_cases hA : alreadySentToday h (dayOf now) E p <;> simp [hA]

lemma checkAndLogHistory_write_snd (h : List HistEntry) (now : Int) (E p : String) :
    (checkAndLogHistory h now E p true).2 =
      pruneHistory h now ++ [⟨dayOf now, now, E, p, "sent"⟩] := by
  unfold checkAndLogHistory
  by_cases hA : alreadySentToday h (dayOf now) E p <;> simp [hA]

lemma countSent_prune_le (h : List HistEntry) (now d : Int) (E p : String) :
    countSent (pruneHistory h now) d E p ≤ countSent h d E p := by
  unfold countSent pruneHistory
  exact List.Sublist.length_le (List.Sublist.filter _ (List.filter_sublist h))

lemma countSent_append_one (h : List HistEntry) (e : HistEntry) (d : Int) (E p : String) :
    countSent (h ++ [e]) d E p =
      countSent h d E p + (if isSentEntryFor d E p e then 1 else 0) := by
  unfold countSent
  rw [List.filter_append]
  by_cases hp : isSentEntryFor d E p e <;> simp [hp]

lemma countSent_zero_of_not_already (h : List HistEntry) (d : Int) (E p : String)
    (hA : alreadySentToday h d E p = false) : countSent h d E p = 0 := by
  unfold countSent
  unfold alreadySentToday at hA
  rw [List.any_eq_false] at hA
  rw [List.filter_eq_nil_iff.mpr hA]
  rfl

/-- A guarded write keeps every per-key "sent" count at 1 or below:
the new entry's own key had count 0 (the check just returned false)
and pruning only removes entries. -/
lemma write_countSent_le_one (h : List HistEntry) (now d : Int) (E p e' p' : String)
    (hpre : countSent h d e' p' ≤ 1)
    (hnot : alreadySentToday h (dayOf now) E p = false) :
    countSent ((checkAndLogHistory h now E p true).2) d e' p' ≤ 1 := by
  rw [checkAndLogHistory_write_snd, countSent_append_one]
  by_cases hk : isSentEntryFor d e' p' ⟨dayOf now, now, E, p, "sent"⟩
  · have hd : (dayOf now = d ∧ E = e') ∧ p = p' := by
      simpa [isSentEntryFor] using hk
    obtain ⟨⟨h1, h2⟩, h3⟩ := hd
    subst h1; subst h2; subst h3
    have h0 : countSent h (dayOf now) E p = 0 :=
      countSent_zero_of_not_already h (dayOf now) E p hnot
    have hp0 : countSent (pruneHistory h now) (dayOf now) E p = 0 :=
      Nat.le_zero.mp (h0 ▸ countSent_prune_le h now (dayOf now) E p)
    simp [hk, hp0]
  · simp only [hk, if_false]
    exact Nat.le_trans (Nat.add_le_add_right (countSent_prune_le h now d e' p') 0)
      (by simpa using hpre)

/-- How one user's iteration can change the history: either not at
all, or by a single guarded write that was preceded (in the same
iteration, on the same state) by a negative de-duplication check. -/
lemma processUser_history_cases (cfg : JobCfg) (st : RunState) (u : User) :
    (processUser cfg st u).history = st.history ∨
    (alreadySentToday st.history (dayOf cfg.now) u.userPrincipalName cfg.profile.id = false ∧
      (processUser cfg st u).history =
        (checkAndLogHistory st.history cfg.now u.userPrincipalName cfg.profile.id true).2) := by
  by_cases hen : u.accountEnabled = true
  · by_cases hm : matchesUser cfg.profile u cfg.defaultDays cfg.now = true
    · cases hM : cfg.mode with
      | preview => simp [processUser, hen, hm, hM]
      | test =>
        simp only [processUser, hen, hm, hM]
        simp
        split
        · simp
        · split
          · simp
          · split <;> simp
      | live =>
        by_cases hc : (checkAndLogHistory st.history cfg.now u.userPrincipalName
            cfg.profile.id false).1 = true
        · simp [processUser, hen, hm, hM, hc]
        · have hnot : alreadySentToday st.history (dayOf cfg.now) u.userPrincipalName
              cfg.profile.id = false := by
            rw [← checkAndLogHistory_fst st.history cfg.now]
            simpa using hc
          simp only [processUser, hen, hm, hM]
          simp [hc]
          split
          · simp
          · split
            · exact Or.inr ⟨hnot, rfl⟩
            · split
              · exact Or.inr ⟨hnot, rfl⟩
              · simp
    · have hmf : matchesUser cfg.profile u cfg.defaultDays cfg.now = false := by
        simpa using hm
      simp [processUser, hen, hmf]
  · have hf : u.accountEnabled = false := by simpa using hen
    simp [processUser, hf]

/-- One user iteration preserves the per-key bound. -/
lemma processUser_countSent_le_one (cfg : JobCfg) (st : RunState) (u : User)
    (d : Int) (e' p' : String) (hpre : countSent st.history d e' p' ≤ 1) :
    countSent (processUser cfg st u).history d e' p' ≤ 1 := by
  rcases processUser_history_cases cfg st u with h | ⟨hnot, h⟩
  · rw [h]; exact hpre
  · rw [h]
    exact write_countSent_le_one st.history cfg.now d u.userPrincipalName cfg.profile.id
      e' p' hpre hnot

/-- A whole run preserves the per-key bound. -/
lemma runUsers_countSent_le_one (cfg : JobCfg) (users : List User) (st : RunState)
    (d : Int) (e' p' : String) (hpre : countSent st.history d e' p' ≤ 1) :
    countSent (runUsers cfg users st).history d e' p' ≤ 1 := by
  induction users generalizing st with
  | nil => exact hpre
  | cons u us ih =>
    exact ih (processUser cfg st u) (processUser_countSent_le_one cfg st u d e' p' hpre)

/-- C2: for a fixed (calendar date, recipient address, profile id)
key, if the history starts with at most one "sent" entry for that key
(in particular if it starts empty), then after any number of job runs
— each run reading the persisted history and queue left by the
previous one — at most one "sent" entry for that key exists.  Every
write for a key happens only after a same-state check found no "sent"
entry for it; runs in other modes never write. -/
theorem C2_no_duplicate_live_sends (runs : List (JobCfg × List User))
    (h0 : List HistEntry) (q0 : List QueueItem) (d : Int) (e' p' : String)
    (hpre : countSent h0 d e' p' ≤ 1) :
    countSent (runJobsOn runs (h0, q0)).1 d e' p' ≤ 1 := by
  induction runs generalizing h0 q0 with
  | nil => exact hpre
  | cons r rest ih =>
    obtain ⟨c, us⟩ := r
    exact ih (runUsers c us (freshRun h0 q0)).history (runUsers c us (freshRun h0 q0)).queue
      (runUsers_countSent_le_one c us (freshRun h0 q0) d e' p' hpre)

/-- Live-mode profile used by the concrete de-duplication runs. -/
def liveProfile : Profile :=
  ⟨"pl", "Live", "Body", none, none, ⟨[90]⟩, ⟨true, false, [], false⟩, ["g"]⟩

/-- Live-mode run with an explicit schedule time (queue path). -/
def liveCfg : JobCfg :=
  ⟨liveProfile, Mode.live, "", some 500, 0, 90,
    fun _ => true, fun _ => none, fun _ => "q"⟩

example :
    countSent (runJobsOn [(liveCfg, [enabledMatchingUser]), (liveCfg, [enabledMatchingUser])]
      ([], [])).1 0 "m@example.com" "pl" = 1 := by
  decide

/-- Witness for `C2_no_duplicate_live_sends`: two identical live runs
over the same single-user audience on the same day. -/
theorem C2_no_duplicate_live_sends_witness :
    countSent (runJobsOn [(liveCfg, [enabledMatchingUser]), (liveCfg, [enabledMatchingUser])]
      ([], [])).1 0 "m@example.com" "pl" ≤ 1 :=
  C2_no_duplicate_live_sends [(liveCfg, [enabledMatchingUser]), (liveCfg, [enabledMatchingUser])]
    [] [] 0 "m@example.com" "pl" (by decide)

/-! ## Queue-worker lemmas

The worker mutates the aliased item objects in place; with the
generator-assigned ids unique (`Nodup` on the id column where it
matters) this is exactly a first-match update by id, which the
following lemmas characterise. -/

/-- No entry of `q` carries id `x`. -/
def noId (q : List QueueItem) (x : String) : Prop := ∀ e ∈ q, e.id ≠ x

lemma ids_setStatusById (q : List QueueItem) (x s : String) :
    (setStatusById q x s).map (fun i => i.id) = q.map (fun i => i.id) := by
  induction q with
  | nil => rfl
  | cons a as ih =>
    by_cases ha : a.id = x <;> simp [setStatusById, ha, ih]

lemma ids_bumpRetryById (q : List QueueItem) (x : String) :
    (bumpRetryById q x).map (fun i => i.id) = q.map (fun i => i.id) := by
  induction q with
  | nil => rfl
  | cons a as ih =>
    by_cases ha : a.id = x <;> simp [bumpRetryById, ha, ih]

lemma ids_removeFirstById (q : List QueueItem) (x : String) :
    ((removeFirstById q x).map (fun i => i.id)).Sublist (q.map (fun i => i.id)) := by
  induction q with
  | nil => simp [removeFirstById]
  | cons a as ih =>
    by_cases ha : a.id = x
    · simp [removeFirstById, ha]
    · simpa [removeFirstById, ha] using List.Sublist.cons₂ a.id ih

lemma ids_markInvalids (q : List QueueItem) :
    (markInvalids q).map (fun i => i.id) = q.map (fun i => i.id) := by
  induction q with
  | nil => rfl
  | cons a as ih =>
    by_cases ha : isInvalidPending a <;> simp [markInvalids, ha] at ih ⊢ <;> exact ih

lemma mem_setStatusById {q : List QueueItem} {x s : String} {e' : QueueItem}
    (h : e' ∈ setStatusById q x s) :
    e' ∈ q ∨ ∃ e ∈ q, e.id = x ∧ e' = { e with status := s } := by
  induction q with
  | nil => simp [setStatusById] at h
  | cons a as ih =>
    simp only [setStatusById] at h
    by_cases ha : a.id = x
    · rw [if_pos ha] at h
      rcases List.mem_cons.mp h with h1 | h1
      · exact Or.inr ⟨a, List.mem_cons_self a as, ha, h1⟩
      · exact Or.inl (List.mem_cons_of_mem a h1)
    · rw [if_neg ha] at h
      rcases List.mem_cons.mp h with h1 | h1
      · exact Or.inl (h1 ▸ List.mem_cons_self a as)
      · rcases ih h1 with h2 | ⟨e, he, hex, hee⟩
        · exact Or.inl (List.mem_cons_of_mem a h2)
        · exact Or.inr ⟨e, List.mem_cons_of_mem a he, hex, hee⟩

lemma mem_bumpRetryById {q : List QueueItem} {x : String} {e' : QueueItem}
    (h : e' ∈ bumpRetryById q x) :
    e' ∈ q ∨ ∃ e ∈ q, e.id = x ∧
      e' = { e with status := "pending", retries := e.retries + 1 } := by
  induction q with
  | nil => simp [bumpRetryById] at h
  | cons a as ih =>
    simp only [bumpRetryById] at h
    by_cases ha : a.id = x
    · rw [if_pos ha] at h
      rcases List.mem_cons.mp h with h1 | h1
      · exact Or.inr ⟨a, List.mem_cons_self a as, ha, h1⟩
      · exact Or.inl (List.mem_cons_of_mem a h1)
    · rw [if_neg ha] at h
      rcases List.mem_cons.mp h with h1 | h1
      · exact Or.inl (h1 ▸ List.mem_cons_self a as)
      · rcases ih h1 with h2 | ⟨e, he, hex, hee⟩
        · exact Or.inl (List.mem_cons_of_mem a h2)
        · exact Or.inr ⟨e, List.mem_cons_of_mem a he, hex, hee⟩

lemma mem_removeFirstById {q : List QueueItem} {x : String} {e' : QueueItem}
    (h : e' ∈ removeFirstById q x) : e' ∈ q := by
  induction q with
  | nil => simp [removeFirstById] at h
  | cons a as ih =>
    simp only [removeFirstById] at h
    by_cases ha : a.id = x
    · rw [if_pos ha] at h
      exact List.mem_cons_of_mem a h
    · rw [if_neg ha] at h
      rcases List.mem_cons.mp h with h1 | h1
      · exact h1 ▸ List.mem_cons_self a as
      · exact List.mem_cons_of_mem a (ih h1)

lemma mem_setStatusById_of_ne {q : List QueueItem} {x s : String} {e : QueueItem}
    (he : e ∈ q) (hx : e.id ≠ x) : e ∈ setStatusById q x s := by
  induction q with
  | nil => simp at he
  | cons a as ih =>
    simp only [setStatusById]
    rcases List.mem_cons.mp he with h1 | h1
    · subst h1
      rw [if_neg hx]
      exact List.mem_cons_self e _
    · by_cases ha : a.id = x
      · rw [if_pos ha]
        exact List.mem_cons_of_mem _ h1
      · rw [if_neg ha]
        exact List.mem_cons_of_mem a (ih h1)

lemma mem_bumpRetryById_of_ne {q : List QueueItem} {x : String} {e : QueueItem}
    (he : e ∈ q) (hx : e.id ≠ x) : e ∈ bumpRetryById q x := by
  induction q with
  | nil => simp at he
  | cons a as ih =>
    simp only [bumpRetryById]
    rcases List.mem_cons.mp he with h1 | h1
    · subst h1
      rw [if_neg hx]
      exact List.mem_cons_self e _
    · by_cases ha : a.id = x
      · rw [if_pos ha]
        exact List.mem_cons_of_mem _ h1
      · rw [if_neg ha]
        exact List.mem_cons_of_mem a (ih h1)

lemma mem_removeFirstById_of_ne {q : List QueueItem} {x : String} {e : QueueItem}
    (he : e ∈ q) (hx : e.id ≠ x) : e ∈ removeFirstById q x := by
  induction q with
  | nil => simp at he
  | cons a as ih =>
    simp only [removeFirstById]
    rcases List.mem_cons.mp he with h1 | h1
    · subst h1
      rw [if_neg hx]
      exact List.mem_cons_self e _
    · by_cases ha : a.id = x
      · rw [if_pos ha]
        exact h1
      · rw [if_neg ha]
        exact List.mem_cons_of_mem a (ih h1)

lemma noId_setStatusById {q : List QueueItem} {x y s : String} (h : noId q y) :
    noId (setStatusById q x s) y := by
  intro e' he'
  rcases mem_setStatusById he' with h1 | ⟨e, he, _, rfl⟩
  · exact h e' h1
  · exact h e he

lemma noId_bumpRetryById {q : List QueueItem} {x y : String} (h : noId q y) :
    noId (bumpRetryById q x) y := by
  intro e' he'
  rcases mem_bumpRetryById he' with h1 | ⟨e, he, _, rfl⟩
  · exact h e' h1
  · exact h e he

lemma noId_removeFirstById {q : List QueueItem} {x y : String} (h : noId q y) :
    noId (removeFirstById q x) y :=
  fun e' he' => h e' (mem_removeFirstById he')

lemma nodup_ids_setStatusById {q : List QueueItem} {x s : String}
    (h : (q.map (fun i => i.id)).Nodup) :
    ((setStatusById q x s).map (fun i => i.id)).Nodup := by
  rw [ids_setStatusById]; exact h

lemma nodup_ids_bumpRetryById {q : List QueueItem} {x : String}
    (h : (q.map (fun i => i.id)).Nodup) :
    ((bumpRetryById q x).map (fun i => i.id)).Nodup := by
  rw [ids_bumpRetryById]; exact h

lemma nodup_ids_removeFirstById {q : List QueueItem} {x : String}
    (h : (q.map (fun i => i.id)).Nodup) :
    ((removeFirstById q x).map (fun i => i.id)).Nodup :=
  List.Nodup.sublist (ids_removeFirstById q x) h

/-- With distinct ids, two members sharing an id are the same entry. -/
lemma theOnly_of_nodup {e : QueueItem} :
    ∀ {q : List QueueItem}, (q.map (fun i => i.id)).Nodup → e ∈ q →
      ∀ e' ∈ q, e'.id = e.id → e' = e := by
  intro q
  induction q with
  | nil => intro _ he; simp at he
  | cons a as ih =>
    intro hnd he e' he' hid
    rw [List.map_cons, List.nodup_cons] at hnd
    obtain ⟨hna, hnd'⟩ := hnd
    rcases List.mem_cons.mp he with hea | hea
    · subst hea
      rcases List.mem_cons.mp he' with h1 | h1
      · exact h1
      · exact absurd (hid ▸ List.mem_map_of_mem (fun i => i.id) h1) hna
    · rcases List.mem_cons.mp he' with h1 | h1
      · subst h1
        exact absurd (hid ▸ List.mem_map_of_mem (fun i => i.id) hea) hna
      · exact ih hnd' hea e' h1 hid

/-- With distinct ids, the first-match status update hits exactly the
member with that id. -/
lemma setStatusById_mem_self {e : QueueItem} (s : String) :
    ∀ {q : List QueueItem}, (q.map (fun i => i.id)).Nodup → e ∈ q →
      { e with status := s } ∈ setStatusById q e.id s := by
  intro q
  induction q with
  | nil => intro _ he; simp at he
  | cons a as ih =>
    intro hnd he
    rw [List.map_cons, List.nodup_cons] at hnd
    obtain ⟨hna, hnd'⟩ := hnd
    rcases List.mem_cons.mp he with hea | hea
    · subst hea
      simp only [setStatusById, if_pos rfl]
      exact List.mem_cons_self _ _
    · by_cases ha : a.id = e.id
      · exact absurd (ha ▸ List.mem_map_of_mem (fun i => i.id) hea) hna
      · simp only [setStatusById, if_neg ha]
        exact List.mem_cons_of_mem a (ih hnd' hea)

/-- With distinct ids, removing the first match removes the id from
the queue entirely. -/
lemma noId_removeFirstById_self {x : String} :
    ∀ {q : List QueueItem}, (q.map (fun i => i.id)).Nodup →
      noId (removeFirstById q x) x := by
  intro q
  induction q with
  | nil => intro _ e' he'; simp [removeFirstById] at he'
  | cons a as ih =>
    intro hnd
    rw [List.map_cons, List.nodup_cons] at hnd
    obtain ⟨hna, hnd'⟩ := hnd
    by_cases ha : a.id = x
    · simp only [removeFirstById, if_pos ha]
      intro e' he' heq
      apply hna
      have hmm : e'.id ∈ List.map (fun i => i.id) as :=
        List.mem_map_of_mem (fun i => i.id) he'
      rwa [heq, ← ha] at hmm
    · simp only [removeFirstById, if_neg ha]
      intro e' he'
      rcases List.mem_cons.mp he' with h1 | h1
      · exact h1 ▸ ha
      · exact ih hnd' e' h1

/-- The worker first marks the item `sending` and then removes it;
composed, this is a plain first-match removal. -/
lemma removeFirstById_setStatusById (q : List QueueItem) (x s : String) :
    removeFirstById (setStatusById q x s) x = removeFirstById q x := by
  induction q with
  | nil => rfl
  | cons a as ih =>
    by_cases ha : a.id = x <;>
      simp [setStatusById, removeFirstById, ha, ih]

/-- The worker first marks the item `sending` and then resets it to
`pending` with one more retry; composed, this is a plain retry bump. -/
lemma bumpRetryById_setStatusById (q : List QueueItem) (x s : String) :
    bumpRetryById (setStatusById q x s) x = bumpRetryById q x := by
  induction q with
  | nil => rfl
  | cons a as ih =>
    by_cases ha : a.id = x <;>
      simp [setStatusById, bumpRetryById, ha, ih]

/-- Net effect of one due item's processing: park at the retry cap
with no attempt, or attempt and then remove (success) or bump
(failure). -/
lemma processItem_eq (sendOk : MailMsg → Bool) (st : List QueueItem × List MailMsg)
    (item : QueueItem) :
    processItem sendOk st item =
      if MAX_RETRIES ≤ item.retries then (setStatusById st.1 item.id "failed", st.2)
      else if sendOk (workerMail item) then
        (removeFirstById st.1 item.id, st.2 ++ [workerMail item])
      else (bumpRetryById st.1 item.id, st.2 ++ [workerMail item]) := by
  unfold processItem
  by_cases h3 : MAX_RETRIES ≤ item.retries
  · simp [h3]
  · by_cases hs : sendOk (workerMail item) <;>
      simp [h3, hs, removeFirstById_setStatusById, bumpRetryById_setStatusById]

lemma foldl_attempts (sendOk : MailMsg → Bool) :
    ∀ (ps : List QueueItem) (q : List QueueItem) (a : List MailMsg),
      (ps.foldl (processItem sendOk) (q, a)).2 =
        a ++ (ps.filter (fun i => !decide (MAX_RETRIES ≤ i.retries))).map workerMail := by
  intro ps
  induction ps with
  | nil => intro q a; simp
  | cons p ps ih =>
    intro q a
    rw [List.foldl_cons, processItem_eq]
    by_cases h3 : MAX_RETRIES ≤ p.retries
    · rw [if_pos h3, ih]
      simp [List.filter_cons, h3]
    · by_cases hs : sendOk (workerMail p)
      · rw [if_neg h3, if_pos hs, ih]
        simp [List.filter_cons, h3]
      · rw [if_neg h3, if_neg hs, ih]
        simp [List.filter_cons, h3]

lemma foldl_frame (sendOk : MailMsg → Bool) {e : QueueItem} :
    ∀ (ps : List QueueItem) (q : List QueueItem) (a : List MailMsg),
      e ∈ q → (∀ p ∈ ps, p.id ≠ e.id) →
      e ∈ (ps.foldl (processItem sendOk) (q, a)).1 := by
  intro ps
  induction ps with
  | nil => intro q a he _; exact he
  | cons p ps ih =>
    intro q a he hid
    rw [List.foldl_cons, processItem_eq]
    have hpe : p.id ≠ e.id := hid p (List.mem_cons_self p ps)
    have hne : e.id ≠ p.id := fun hh => hpe hh.symm
    have hrest : ∀ p' ∈ ps, p'.id ≠ e.id :=
      fun p' hp' => hid p' (List.mem_cons_of_mem p hp')
    by_cases h3 : MAX_RETRIES ≤ p.retries
    · rw [if_pos h3]
      exact ih _ _ (mem_setStatusById_of_ne he hne) hrest
    · by_cases hs : sendOk (workerMail p)
      · rw [if_neg h3, if_pos hs]
        exact ih _ _ (mem_removeFirstById_of_ne he hne) hrest
      · rw [if_neg h3, if_neg hs]
        exact ih _ _ (mem_bumpRetryById_of_ne he hne) hrest

lemma foldl_noId (sendOk : MailMsg → Bool) {y : String} :
    ∀ (ps : List QueueItem) (q : List QueueItem) (a : List MailMsg),
      noId q y → noId ((ps.foldl (processItem sendOk) (q, a)).1) y := by
  intro ps
  induction ps with
  | nil => intro q a hq; exact hq
  | cons p ps ih =>
    intro q a hq
    rw [List.foldl_cons, processItem_eq]
    by_cases h3 : MAX_RETRIES ≤ p.retries
    · rw [if_pos h3]
      exact ih _ _ (noId_setStatusById hq)
    · by_cases hs : sendOk (workerMail p)
      · rw [if_neg h3, if_pos hs]
        exact ih _ _ (noId_removeFirstById hq)
      · rw [if_neg h3, if_neg hs]
        exact ih _ _ (noId_bumpRetryById hq)

lemma foldl_nodup_ids (sendOk : MailMsg → Bool) :
    ∀ (ps : List QueueItem) (q : List QueueItem) (a : List MailMsg),
      (q.map (fun i => i.id)).Nodup →
      (((ps.foldl (processItem sendOk) (q, a)).1).map (fun i => i.id)).Nodup := by
  intro ps
  induction ps with
  | nil => intro q a hq; exact hq
  | cons p ps ih =>
    intro q a hq
    rw [List.foldl_cons, processItem_eq]
    by_cases h3 : MAX_RETRIES ≤ p.retries
    · rw [if_pos h3]
      exact ih _ _ (nodup_ids_setStatusById hq)
    · by_cases hs : sendOk (workerMail p)
      · rw [if_neg h3, if_pos hs]
        exact ih _ _ (nodup_ids_removeFirstById hq)
      · rw [if_neg h3, if_neg hs]
        exact ih _ _ (nodup_ids_bumpRetryById hq)

lemma foldl_failed_source (sendOk : MailMsg → Bool) (queue0 : List QueueItem) :
    ∀ (ps : List QueueItem) (q : List QueueItem) (a : List MailMsg),
      (∀ p ∈ ps, p ∈ queue0) →
      (∀ e' ∈ q, e'.status = "failed" → ∃ e ∈ queue0, e.id = e'.id ∧
        (e.status = "failed" ∨ e.scheduledFor = none ∨ MAX_RETRIES ≤ e.retries)) →
      ∀ e' ∈ (ps.foldl (processItem sendOk) (q, a)).1, e'.status = "failed" →
        ∃ e ∈ queue0, e.id = e'.id ∧
          (e.status = "failed" ∨ e.scheduledFor = none ∨ MAX_RETRIES ≤ e.retries) := by
  intro ps
  induction ps with
  | nil => intro q a _ hq; exact hq
  | cons p ps ih =>
    intro q a hps hq
    rw [List.foldl_cons, processItem_eq]
    have hp0 : p ∈ queue0 := hps p (List.mem_cons_self p ps)
    have hrest : ∀ p' ∈ ps, p' ∈ queue0 :=
      fun p' hp' => hps p' (List.mem_cons_of_mem p hp')
    by_cases h3 : MAX_RETRIES ≤ p.retries
    · rw [if_pos h3]
      apply ih _ _ hrest
      intro e' he' hfail
      rcases mem_setStatusById he' with h1 | ⟨e, _, hex, rfl⟩
      · exact hq e' h1 hfail
      · exact ⟨p, hp0, hex.symm, Or.inr (Or.inr h3)⟩
    · by_cases hs : sendOk (workerMail p)
      · rw [if_neg h3, if_pos hs]
        apply ih _ _ hrest
        intro e' he' hfail
        exact hq e' (mem_removeFirstById he') hfail
      · rw [if_neg h3, if_neg hs]
        apply ih _ _ hrest
        intro e' he' hfail
        rcases mem_bumpRetryById he' with h1 | ⟨e, _, _, rfl⟩
        · exact hq e' h1 hfail
        · simp at hfail

lemma mem_markInvalids_self {q : List QueueItem} {e : QueueItem}
    (he : e ∈ q) (hni : isInvalidPending e = false) : e ∈ markInvalids q := by
  unfold markInvalids
  rw [List.mem_map]
  exact ⟨e, he, by simp [hni]⟩

lemma mem_markInvalids_invalid {q : List QueueItem} {e : QueueItem}
    (he : e ∈ q) (hi : isInvalidPending e = true) :
    { e with status := "failed" } ∈ markInvalids q := by
  unfold markInvalids
  rw [List.mem_map]
  exact ⟨e, he, by simp [hi]⟩

lemma isInvalidPending_eq_false_of_isDue {e : QueueItem} {now : Int}
    (h : isDue e now = true) : isInvalidPending e = false := by
  unfold isDue at h
  unfold isInvalidPending
  cases hsf : e.scheduledFor with
  | none => rw [hsf] at h; simp at h
  | some t => simp [hsf]

lemma isDue_eq_false_of_failed {e : QueueItem} {now : Int}
    (h : e.status = "failed") : isDue e now = false := by
  unfold isDue
  rw [h]
  simp

lemma isInvalidPending_eq_false_of_failed {e : QueueItem}
    (h : e.status = "failed") : isInvalidPending e = false := by
  unfold isInvalidPending
  rw [h]
  simp

lemma scheduledFor_eq_none_of_isInvalidPending {e : QueueItem}
    (h : isInvalidPending e = true) : e.scheduledFor = none := by
  simp only [isInvalidPending, Bool.and_eq_true] at h
  exact eq_of_beq h.2

lemma status_ne_failed_of_isDue {e : QueueItem} {now : Int}
    (h : isDue e now = true) : ¬e.status = "failed" := by
  unfold isDue at h
  intro hf
  rw [hf] at h
  simp at h

lemma markInvalids_failed_source (queue : List QueueItem) :
    ∀ e' ∈ markInvalids queue, e'.status = "failed" →
      ∃ e ∈ queue, e.id = e'.id ∧
        (e.status = "failed" ∨ e.scheduledFor = none ∨ MAX_RETRIES ≤ e.retries) := by
  intro e' he' hfail
  unfold markInvalids at he'
  rw [List.mem_map] at he'
  obtain ⟨e, he, heq⟩ := he'
  by_cases hi : isInvalidPending e = true
  · have he2 : e' = { e with status := "failed" } := by rw [← heq]; simp [hi]
    subst he2
    exact ⟨e, he, rfl, Or.inr (Or.inl (scheduledFor_eq_none_of_isInvalidPending hi))⟩
  · have he2 : e' = e := by rw [← heq]; simp [hi]
    exact ⟨e, he, by rw [he2], he2 ▸ Or.inl hfail⟩

lemma workerTick_eq_of_pending_empty {queue : List QueueItem} {now : Int}
    (sendOk : MailMsg → Bool)
    (h : (queue.filter (fun i => isDue i now)).isEmpty = true) :
    workerTick queue now sendOk = (queue, []) := by
  simp [workerTick, h]

lemma workerTick_eq_of_pending_nonempty {queue : List QueueItem} {now : Int}
    (sendOk : MailMsg → Bool)
    (h : (queue.filter (fun i => isDue i now)).isEmpty = false) :
    workerTick queue now sendOk =
      (queue.filter (fun i => isDue i now)).foldl (processItem sendOk)
        (markInvalids queue, []) := by
  simp [workerTick, h]

/-- C4 (amended): restricted to queue items whose `scheduledFor`
parses (worker queues have generator-unique ids): (1) an item can end
a tick `failed` only if it already was failed, had an unparseable
schedule, or had reached `MAX_RETRIES = 3` retries — never earlier;
(2) a due item at the retry cap is parked as `failed` with its retry
count unchanged; (3) a failed item is never touched again — it
survives every tick unchanged; and (4) the tick's delivery attempts
are exactly the due items below the retry cap, so neither failed nor
at-cap items are ever attempted — never later. -/
theorem C4_retry_bound (queue : List QueueItem) (now : Int) (sendOk : MailMsg → Bool)
    (hnd : (queue.map (fun i => i.id)).Nodup) :
    (∀ e' ∈ (workerTick queue now sendOk).1, e'.status = "failed" →
      ∃ e ∈ queue, e.id = e'.id ∧
        (e.status = "failed" ∨ e.scheduledFor = none ∨ MAX_RETRIES ≤ e.retries)) ∧
    (∀ item ∈ queue, isDue item now = true → MAX_RETRIES ≤ item.retries →
      { item with status := "failed" } ∈ (workerTick queue now sendOk).1) ∧
    (∀ e ∈ queue, e.status = "failed" → e ∈ (workerTick queue now sendOk).1) ∧
    ((workerTick queue now sendOk).2 =
      ((queue.filter (fun i => isDue i now)).filter
        (fun i => !decide (MAX_RETRIES ≤ i.retries))).map workerMail) := by
  by_cases hemp : (queue.filter (fun i => isDue i now)).isEmpty = true
  · have hfe : queue.filter (fun i => isDue i now) = [] := List.isEmpty_iff.mp hemp
    rw [workerTick_eq_of_pending_empty sendOk hemp]
    refine ⟨?_, ?_, ?_, ?_⟩
    · intro e' he' hf
      exact ⟨e', he', rfl, Or.inl hf⟩
    · intro item hmem hdue _
      exfalso
      have hin : item ∈ queue.filter (fun i => isDue i now) :=
        List.mem_filter.mpr ⟨hmem, hdue⟩
      rw [hfe] at hin
      simp at hin
    · intro e he _
      exact he
    · rw [hfe]
      rfl
  · have hemp' : (queue.filter (fun i => isDue i now)).isEmpty = false := by
      simpa using hemp
    rw [workerTick_eq_of_pending_nonempty sendOk hemp']
    have hpendsub : ∀ p ∈ queue.filter (fun i => isDue i now), p ∈ queue :=
      fun p hp => List.mem_of_mem_filter hp
    have hndmi : ((markInvalids queue).map (fun i => i.id)).Nodup := by
      rw [ids_markInvalids]
      exact hnd
    have hndp : ((queue.filter (fun i => isDue i now)).map (fun i => i.id)).Nodup :=
      List.Nodup.sublist (List.Sublist.map _ (List.filter_sublist queue)) hnd
    refine ⟨?_, ?_, ?_, ?_⟩
    · exact foldl_failed_source sendOk queue _ _ [] hpendsub
        (markInvalids_failed_source queue)
    · intro item hmem hdue h3
      have hpend : item ∈ queue.filter (fun i => isDue i now) :=
        List.mem_filter.mpr ⟨hmem, hdue⟩
      obtain ⟨l1, l2, hdecomp⟩ := List.append_of_mem hpend
      rw [hdecomp, List.foldl_append, List.foldl_cons]
      have hndp2 : ((l1 ++ item :: l2).map (fun i => i.id)).Nodup := hdecomp ▸ hndp
      rw [List.map_append, List.map_cons] at hndp2
      rw [List.nodup_middle, List.nodup_cons] at hndp2
      obtain ⟨hnotin, _⟩ := hndp2
      rw [List.mem_append] at hnotin
      push_neg at hnotin
      obtain ⟨hni1, hni2⟩ := hnotin
      have hid1 : ∀ p ∈ l1, p.id ≠ item.id := by
        intro p hp heq
        exact hni1 (heq ▸ List.mem_map_of_mem (fun i => i.id) hp)
      have hid2 : ∀ p ∈ l2, p.id ≠ item.id := by
        intro p hp heq
        exact hni2 (heq ▸ List.mem_map_of_mem (fun i => i.id) hp)
      have hmem1 : item ∈ (l1.foldl (processItem sendOk) (markInvalids queue, [])).1 :=
        foldl_frame sendOk l1 _ [] (mem_markInvalids_self hmem
          (isInvalidPending_eq_false_of_isDue hdue)) hid1
      have hnd1 : (((l1.foldl (processItem sendOk) (markInvalids queue, [])).1).map
          (fun i => i.id)).Nodup :=
        foldl_nodup_ids sendOk l1 _ [] hndmi
      rw [processItem_eq, if_pos h3]
      exact foldl_frame sendOk l2 _ _ (setStatusById_mem_self "failed" hnd1 hmem1) hid2
    · intro e he hf
      apply foldl_frame sendOk _ _ []
        (mem_markInvalids_self he (isInvalidPending_eq_false_of_failed hf))
      intro p hp heq
      have hpq : p ∈ queue := List.mem_of_mem_filter hp
      have hpd : isDue p now = true := (List.mem_filter.mp hp).2
      have hpe : p = e := theOnly_of_nodup hnd he p hpq heq
      apply status_ne_failed_of_isDue hpd
      rw [hpe]
      exact hf
    · exact foldl_attempts sendOk _ _ []

/-- A pending item with a parseable past schedule and no retries. -/
def dueItem : QueueItem :=
  ⟨"qd", some 0, "d@example.com", [], "S", "B", "P", "pending", 0, false⟩

/-- A pending due item that has reached the retry cap. -/
def capItem : QueueItem :=
  ⟨"qc", some 0, "c@example.com", [], "S", "B", "P", "pending", 3, false⟩

/-- A pending item whose stored schedule does not parse as a date. -/
def invalidItem : QueueItem :=
  ⟨"qi", none, "i@example.com", [], "S", "B", "P", "pending", 0, false⟩

/-- An item already parked as failed. -/
def failedItem : QueueItem :=
  ⟨"qf", some 0, "f@example.com", [], "S", "B", "P", "failed", 3, false⟩

/-- Witness for `C4_retry_bound` at a concrete queue: the at-cap item
is parked, the failed item survives untouched, and the only attempts
are the due items below the cap. -/
theorem C4_retry_bound_witness :
    ({ capItem with status := "failed" }) ∈
        (workerTick [capItem, failedItem] 5 (fun _ => true)).1 ∧
    failedItem ∈ (workerTick [capItem, failedItem] 5 (fun _ => true)).1 ∧
    (workerTick [capItem, failedItem] 5 (fun _ => true)).2 =
      (([capItem, failedItem].filter (fun i => isDue i 5)).filter
        (fun i => !decide (MAX_RETRIES ≤ i.retries))).map workerMail :=
  ⟨(C4_retry_bound [capItem, failedItem] 5 (fun _ => true) (by decide)).2.1
      capItem (by decide) (by decide) (by decide),
   (C4_retry_bound [capItem, failedItem] 5 (fun _ => true) (by decide)).2.2.1
      failedItem (by decide) (by decide),
   (C4_retry_bound [capItem, failedItem] 5 (fun _ => true) (by decide)).2.2.2⟩

/-- C4 counterexample: an item whose stored schedule does not parse is
marked `failed` by the filter pass with its retry count still 0, so
"status becomes failed exactly when the retry count reaches 3 — never
earlier" is false as stated. -/
theorem C4_counterexample :
    invalidItem.status = "pending" ∧ invalidItem.retries = 0 ∧
    ({ invalidItem with status := "failed" }) ∈
      (workerTick [invalidItem, dueItem] 5 (fun _ => true)).1 := by
  decide

/-- C8 (amended): on a successful delivery of a due item (below the
retry cap), the item is removed from the queue — no entry with its id
survives the tick — but the worker appends nothing to the audit
history: the history component of the system state passes through
unchanged (the audit "sent" entry for live sends is recorded by the
job at enqueue time instead). -/
theorem C8_worker_success_effect (queue : List QueueItem) (history : List HistEntry)
    (now : Int) (sendOk : MailMsg → Bool) (item : QueueItem)
    (hnd : (queue.map (fun i => i.id)).Nodup)
    (hmem : item ∈ queue) (hdue : isDue item now = true)
    (h3 : ¬MAX_RETRIES ≤ item.retries)
    (hs : sendOk (workerMail item) = true) :
    (∀ e' ∈ (workerTick queue now sendOk).1, e'.id ≠ item.id) ∧
    (workerSystemTick queue history now sendOk).1.2 = history := by
  constructor
  · have hpend : item ∈ queue.filter (fun i => isDue i now) :=
      List.mem_filter.mpr ⟨hmem, hdue⟩
    have hemp' : (queue.filter (fun i => isDue i now)).isEmpty = false := by
      cases hq : queue.filter (fun i => isDue i now) with
      | nil => rw [hq] at hpend; simp at hpend
      | cons a as => rfl
    rw [workerTick_eq_of_pending_nonempty sendOk hemp']
    obtain ⟨l1, l2, hdecomp⟩ := List.append_of_mem hpend
    rw [hdecomp, List.foldl_append, List.foldl_cons]
    have hndmi : ((markInvalids queue).map (fun i => i.id)).Nodup := by
      rw [ids_markInvalids]
      exact hnd
    have hnd1 : (((l1.foldl (processItem sendOk) (markInvalids queue, [])).1).map
        (fun i => i.id)).Nodup :=
      foldl_nodup_ids sendOk l1 _ [] hndmi
    rw [processItem_eq, if_neg h3, if_pos hs]
    exact foldl_noId sendOk l2 _ _ (noId_removeFirstById_self hnd1)
  · rfl

/-- Witness for `C8_worker_success_effect` at a concrete input. -/
theorem C8_worker_success_effect_witness :
    (∀ e' ∈ (workerTick [dueItem] 5 (fun _ => true)).1, e'.id ≠ dueItem.id) ∧
    (workerSystemTick [dueItem] [] 5 (fun _ => true)).1.2 = [] :=
  C8_worker_success_effect [dueItem] [] 5 (fun _ => true) dueItem
    (by decide) (by decide) (by decide) (by decide) (by decide)

/-- C8 counterexample: a tick that successfully delivers the sole due
item removes it from the queue and makes exactly one delivery attempt,
yet the audit history stays empty — no entry with status "sent" is
appended by the worker, contradicting the claim as stated. -/
theorem C8_counterexample :
    (workerSystemTick [dueItem] [] 5 (fun _ => true)).1.1 = [] ∧
    (workerSystemTick [dueItem] [] 5 (fun _ => true)).1.2 = [] ∧
    (workerSystemTick [dueItem] [] 5 (fun _ => true)).2 = [workerMail dueItem] := by
  decide

/-- C10: an unparseable `scheduledFor` keeps the item out of the due
set and it is never attempted; in a tick that also has a due item the
invalid item is persisted as `failed`.  But in a tick with no due
items the handler returns before `saveQueue`, so the in-memory
`failed` mark is discarded and the durable queue still has the item
`pending` — the code's own "Mark as failed so we don't loop" intent is
not met in that state. -/
theorem C10_invalid_schedule_parking :
    isDue invalidItem 5 = false ∧
    isInvalidPending invalidItem = true ∧
    workerTick [invalidItem] 5 (fun _ => true) = ([invalidItem], []) ∧
    invalidItem.status = "pending" ∧
    ({ invalidItem with status := "failed" }) ∈
      (workerTick [invalidItem, dueItem] 5 (fun _ => true)).1 ∧
    (workerTick [invalidItem, dueItem] 5 (fun _ => true)).2 = [workerMail dueItem] := by
  decide

end AdPwReset
